import Mathlib

/-!
Verification of the oarkflow/ip geolocation engine.

The Go source keeps two parallel geoip implementations inside the repository:
a versioned binary-cache engine (StringTable, TrieRecord, SaveCache, LoadCache,
LoadDBIP, Lookup) and a gob/gzip engine (GeoRecord tries, loadTrie,
loadTrieFromCSV, loadTrieFromEmbedded).  Both share the same bit-trie
algorithms (getBit, insertTrie, lookupTrie, computePrefixLen), which are
embedded here once, generically in the record type.

Conventions of the embedding:
  - a Go byte slice (net.IP, string) is a List Nat of byte values;
  - a Go nil pointer to a trie node is the TrieNode.nil constructor;
  - a Go runtime panic (out-of-range slice index, nil dereference) is
    represented by Option.none at the result of the function that panics;
  - machine integers are Nat with an explicit modulus where overflow matters
    (uint16 string-table indices, uint32 cache fields);
  - floating-point values are carried opaquely (GoFloat): no proved property
    inspects float arithmetic, only presence and propagation of the values.
-/

namespace IpGeo

/-- A Go byte slice or string: a list of byte values. -/
abbrev GoStr := List Nat

/-- Go net.IP.To4: a 4-byte address is returned as is; a 16-byte
IPv4-mapped address (ten zero bytes then 0xff 0xff) is shortened to its
last four bytes; anything else gives nil. -/
def toV4 (ip : List Nat) : Option (List Nat) :=
  if ip.length = 4 then some ip
  else if ip.length = 16 ∧ ip.take 10 = List.replicate 10 0 ∧
      ip.get? 10 = some 255 ∧ ip.get? 11 = some 255 then
    some (ip.drop 12)
  else none

/-- Go net.IP.To16: a 16-byte address is returned as is; a 4-byte address is
widened to the IPv4-mapped form; anything else gives nil. -/
def to16 (ip : List Nat) : Option (List Nat) :=
  if ip.length = 16 then some ip
  else if ip.length = 4 then some ([0, 0, 0, 0, 0, 0, 0, 0, 0, 0, 255, 255] ++ ip)
  else none

/-- getBit from the source: the i-th bit of the address, i = 0 being the most
significant bit.  Uses the 4-byte form when To4 succeeds, else the To16 form.
Result none models the Go runtime panic of an out-of-range byte index. -/
def getBit (ip : List Nat) (i : Nat) : Option Nat :=
  match toV4 ip with
  | some ip4 => (ip4.get? (i / 8)).map fun b => b >>> (7 - i % 8) &&& 1
  | none =>
    match to16 ip with
    | some ip16 => (ip16.get? (i / 8)).map fun b => b >>> (7 - i % 8) &&& 1
    | none => none

/-- A trie node, or the Go nil pointer standing for an absent child. -/
inductive TrieNode (α : Type) where
  | nil : TrieNode α
  | node (left right : TrieNode α) (record : Option α) : TrieNode α
deriving DecidableEq

/-- Go: if node.Left == nil, a fresh empty node is allocated. -/
def orEmpty {α : Type} : TrieNode α → TrieNode α
  | .nil => .node .nil .nil none
  | t => t

/-- Loop body of insertTrie: walk fuel more bits from bit index i, creating
children as needed, and attach the record at the node reached.  none models a
panic (nil root dereference or out-of-range bit access). -/
def insertGo {α : Type} (ip : List Nat) (r : α) :
    Nat → Nat → TrieNode α → Option (TrieNode α)
  | _, 0, .nil => none
  | _, 0, .node l rt _ => some (.node l rt (some r))
  | _, _ + 1, .nil => none
  | i, fuel + 1, .node l rt rec =>
    match getBit ip i with
    | none => none
    | some b =>
      if b = 0 then
        (insertGo ip r (i + 1) fuel (orEmpty l)).map fun l2 => TrieNode.node l2 rt rec
      else
        (insertGo ip r (i + 1) fuel (orEmpty rt)).map fun r2 => TrieNode.node l r2 rec

/-- insertTrie from the source: walk prefixLen bits of ip from the root and
attach the record at the node reached, overwriting any previous record. -/
def insertTrie {α : Type} (root : TrieNode α) (ip : List Nat) (prefixLen : Nat)
    (r : α) : Option (TrieNode α) :=
  insertGo ip r 0 prefixLen root

/-- Loop body of lookupTrie: from bit index i with fuel bits remaining,
remember the most recent record seen and descend; stop at a nil child or when
the fuel is spent.  The outer none models a panic inside getBit. -/
def lookupGo {α : Type} (ip : List Nat) :
    Nat → Option α → Nat → TrieNode α → Option (Option α)
  | _, best, 0, _ => some best
  | _, best, _ + 1, .nil => some best
  | i, best, fuel + 1, .node l rt rec =>
    let best2 := match rec with
      | some x => some x
      | none => best
    match getBit ip i with
    | none => none
    | some b => lookupGo ip (i + 1) best2 fuel (if b = 0 then l else rt)

/-- lookupTrie from the source: longest prefix match walking up to maxBits
bits, returning the deepest record seen among the nodes visited by the loop. -/
def lookupTrie {α : Type} (root : TrieNode α) (ip : List Nat) (maxBits : Nat) :
    Option (Option α) :=
  lookupGo ip 0 none maxBits root

/-- Outcome of computePrefixLen: a prefix length, a Go error value, or a
runtime panic inside getBit. -/
inductive PrefixResult where
  | ok (n : Nat)
  | err (msg : String)
  | panicked
deriving DecidableEq

/-- First loop of computePrefixLen: starting at bit i with fuel bits left,
the index of the first bit where s and e differ (or the end of the range);
none models a getBit panic. -/
def firstDiff (s e : List Nat) : Nat → Nat → Option Nat
  | i, 0 => some i
  | i, fuel + 1 =>
    match getBit s i, getBit e i with
    | some bs, some be => if bs = be then firstDiff s e (i + 1) fuel else some i
    | _, _ => none

/-- Second loop of computePrefixLen: check that s has zero bits and e has one
bits from bit i for fuel bits.  some none is success, some (some msg) is the
Go error returned, none models a getBit panic. -/
def verifyBits (s e : List Nat) : Nat → Nat → Option (Option String)
  | _, 0 => some none
  | i, fuel + 1 =>
    match getBit s i with
    | none => none
    | some bs =>
      if bs ≠ 0 then some (some "start IP not aligned for a CIDR block")
      else
        match getBit e i with
        | none => none
        | some be =>
          if be ≠ 1 then some (some "end IP not a proper broadcast for a CIDR block")
          else verifyBits s e (i + 1) fuel

/-- Normalisation at the top of computePrefixLen: replace an address by its
4-byte form when To4 succeeds. -/
def normIP (ip : List Nat) : List Nat :=
  match toV4 ip with
  | some ip4 => ip4
  | none => ip

/-- The bit width chosen by computePrefixLen from the (normalised) start
address: 32 when it has a 4-byte form, else 128. -/
def familyBits (s : List Nat) : Nat :=
  match toV4 s with
  | some _ => 32
  | none => 128

/-- computePrefixLen from the source: normalise both addresses, pick 32 or
128 bits from the family of the start address, find the first differing bit,
then verify the remaining bits (start all zeros, end all ones). -/
def computePrefixLen (start stop : List Nat) : PrefixResult :=
  match firstDiff (normIP start) (normIP stop) 0 (familyBits (normIP start)) with
  | none => .panicked
  | some p =>
    match verifyBits (normIP start) (normIP stop) p (familyBits (normIP start) - p) with
    | none => .panicked
    | some (some msg) => .err msg
    | some none => .ok p

/-- Both addresses belong to the same family: either both have a 4-byte form
(32-bit space) or both are 16-byte addresses with no 4-byte form (128-bit). -/
def sameFamily (s e : List Nat) (n : Nat) : Prop :=
  (n = 32 ∧ (toV4 s).isSome ∧ (toV4 e).isSome) ∨
  (n = 128 ∧ s.length = 16 ∧ toV4 s = none ∧ e.length = 16 ∧ toV4 e = none)

instance (s e : List Nat) (n : Nat) : Decidable (sameFamily s e n) := by
  unfold sameFamily
  infer_instance

/-! ### StringTable (versioned-cache engine) -/

/-- StringTable from the source: the ordered sequence of interned strings and
the lookup map from string to index.  The Go map is modelled as an
association list where a later insertion is placed in front and therefore
shadows older entries, matching map overwrite semantics. -/
structure StringTable where
  strings : List GoStr
  lookup : List (GoStr × Nat)
deriving DecidableEq

/-- NewStringTable: index 0 is the empty string, the map starts empty. -/
def NewStringTable : StringTable := ⟨[[]], []⟩

/-- Lookup in the association list modelling the Go map. -/
def lookupFind : List (GoStr × Nat) → GoStr → Option Nat
  | [], _ => none
  | (k, v) :: rest, s => if k = s then some v else lookupFind rest s

/-- GetIndex from the source: 0 for the empty string; the existing index if
present; otherwise append and record the new index.  The index is a uint16 in
Go, hence the modulus on the length. -/
def GetIndex (st : StringTable) (s : GoStr) : Nat × StringTable :=
  if s = [] then (0, st)
  else
    match lookupFind st.lookup s with
    | some idx => (idx, st)
    | none =>
      let idx := st.strings.length % 65536
      (idx, ⟨st.strings ++ [s], (s, idx) :: st.lookup⟩)

/-- GetString from the source: the stored string, or the empty string when
the index is out of range. -/
def GetString (st : StringTable) (idx : Nat) : GoStr :=
  if h : idx < st.strings.length then st.strings.get ⟨idx, h⟩ else []

/-- The data-model invariant of the string table: every index recorded in the
lookup map denotes exactly its key in the string sequence. -/
def WFTable (st : StringTable) : Prop :=
  ∀ s i, lookupFind st.lookup s = some i →
    ∃ h : i < st.strings.length, st.strings.get ⟨i, h⟩ = s

/-! ### Standard-library models: floats, TrimSpace, ParseIP, IP.String -/

/-- A Go floating-point value carried opaquely: either the zero value or the
value parsed from a source token.  No proved property inspects float
arithmetic, so the token is kept as the representation. -/
inductive GoFloat where
  | zero : GoFloat
  | ofToken (s : GoStr) : GoFloat
deriving DecidableEq

/-- Modelled from the Go standard library contract of strconv.ParseFloat,
restricted to plain decimal literals (optional sign, digits, at most one
decimal point).  Exponent, hex, Inf and NaN forms are not exercised by any
input considered here. -/
def validFloat (s : GoStr) : Bool :=
  let t := match s with
    | b :: rest => if b = 43 ∨ b = 45 then rest else s
    | [] => []
  decide (t ≠ []) && t.all (fun b => (48 ≤ b && b ≤ 57) || b = 46) &&
    decide (t.count 46 ≤ 1) && t.any (fun b => 48 ≤ b && b ≤ 57)

/-- strconv.ParseFloat as used by the source: the parsed value (opaque) and a
success flag; on failure Go returns the value 0 together with an error. -/
def goParseFloat (s : GoStr) : GoFloat × Bool :=
  (if validFloat s then .ofToken s else .zero, validFloat s)

/-- ASCII white space, for the strings.TrimSpace model. -/
def isSpace (b : Nat) : Bool :=
  b = 32 || b = 9 || b = 10 || b = 13 || b = 11 || b = 12

/-- strings.TrimSpace restricted to ASCII white space. -/
def trimSpace (s : GoStr) : GoStr :=
  ((s.dropWhile isSpace).reverse.dropWhile isSpace).reverse

/-- Split a byte string at dots (byte 46). -/
def splitDot : GoStr → List GoStr
  | [] => [[]]
  | b :: r =>
    let rest := splitDot r
    if b = 46 then [] :: rest
    else
      match rest with
      | h :: t => (b :: h) :: t
      | [] => [[b]]

/-- One decimal field of a dotted-quad address: digits only, at most three of
them, value at most 255, no leading zero (as in current Go net.ParseIP). -/
def parseV4Field (f : GoStr) : Option Nat :=
  if f = [] then none
  else if f.all (fun b => 48 ≤ b && b ≤ 57) then
    if f.length ≤ 3 ∧ (f.head? = some 48 → f = [48]) then
      let v := f.foldl (fun acc b => acc * 10 + (b - 48)) 0
      if v ≤ 255 then some v else none
    else none
  else none

/-- Modelled from the Go standard library: net.ParseIP restricted to IPv4
dotted-decimal text, the only textual form evaluated by the proved
properties; Go returns the 16-byte IPv4-mapped form.  Other texts give
none. -/
def parseIP (s : GoStr) : Option (List Nat) :=
  match splitDot s with
  | [a, b, c, d] => do
    let x ← parseV4Field a
    let y ← parseV4Field b
    let z ← parseV4Field c
    let w ← parseV4Field d
    return [0, 0, 0, 0, 0, 0, 0, 0, 0, 0, 255, 255, x, y, z, w]
  | _ => none

/-- Decimal text of a byte value (used by the net.IP.String model). -/
def decByte (n : Nat) : GoStr :=
  if n < 10 then [48 + n]
  else if n < 100 then [48 + n / 10, 48 + n % 10]
  else [48 + n / 100, 48 + n / 10 % 10, 48 + n % 10]

/-- Modelled from the Go standard library: net.IP.String restricted to
addresses with a 4-byte form (dotted decimal); the IPv6 textual form is not
exercised by any property proved here. -/
def ipString (ip : List Nat) : GoStr :=
  match toV4 ip with
  | some [a, b, c, d] =>
    decByte a ++ [46] ++ decByte b ++ [46] ++ decByte c ++ [46] ++ decByte d
  | _ => []

/-! ### Versioned-cache engine: records, database, lookup facade, LoadDBIP -/

/-- TrieRecord from the source: four uint16 string-table indices and two
float32 coordinates. -/
structure TrieRecord where
  CountryCode : Nat
  Country : Nat
  Region : Nat
  City : Nat
  Lat : GoFloat
  Lng : GoFloat
deriving DecidableEq

/-- The IPGeo database: the two tries and the string table. -/
structure IPGeo where
  trieV4 : TrieNode TrieRecord
  trieV6 : TrieNode TrieRecord
  stringTable : StringTable
deriving DecidableEq

/-- New from the source: nil tries, fresh string table. -/
def New : IPGeo := ⟨.nil, .nil, NewStringTable⟩

/-- The seven results of IPGeo.Lookup, gathered in a structure. -/
structure GeoLookup where
  countryCode : GoStr
  country : GoStr
  region : GoStr
  city : GoStr
  lat : GoFloat
  lng : GoFloat
  found : Bool
deriving DecidableEq

/-- The two return paths of IPGeo.Lookup: resolve the record through the
string table, or the zero values with found = false. -/
def resolveLookup (st : StringTable) : Option TrieRecord → GeoLookup
  | some r =>
    ⟨GetString st r.CountryCode, GetString st r.Country, GetString st r.Region,
      GetString st r.City, r.Lat, r.Lng, true⟩
  | none => ⟨[], [], [], [], .zero, .zero, false⟩

/-- IPGeo.Lookup from the source: dispatch on the family of the address and
run the longest-prefix-match lookup; the outer none models a panic. -/
def Lookup (g : IPGeo) (ip : List Nat) : Option GeoLookup :=
  match toV4 ip with
  | some ip4 => (lookupTrie g.trieV4 ip4 32).map (resolveLookup g.stringTable)
  | none => (lookupTrie g.trieV6 ((to16 ip).getD []) 128).map (resolveLookup g.stringTable)

/-- countryByIP from the versioned-cache engine: nil for a nil address or a
missed lookup, else the bytes of the Country field of the result. -/
def countryByIP (g : IPGeo) (ip : Option (List Nat)) : Option (Option GoStr) :=
  match ip with
  | none => some none
  | some addr =>
    (Lookup g addr).map fun res => if res.found then some res.country else none

/-- Country from the versioned-cache engine: parse the text, then
countryByIP; a nil byte slice converts to the empty string. -/
def Country (g : IPGeo) (s : GoStr) : Option GoStr :=
  (countryByIP g (parseIP s)).map fun b => b.getD []

/-- CountryByIP from the versioned-cache engine. -/
def CountryByIP (g : IPGeo) (ip : List Nat) : Option GoStr :=
  (countryByIP g (some ip)).map fun b => b.getD []

/-- One row of the LoadDBIP loop.  Note the source interns the four label
columns before checking the IPs, parses the coordinate columns discarding the
error, and only then parses and validates the IP range; a row failing the IP
or CIDR checks is skipped but has already grown the string table. -/
def processDBIPRow
    (acc : StringTable × TrieNode TrieRecord × TrieNode TrieRecord × Nat × Nat)
    (rec : List GoStr) :
    Option (StringTable × TrieNode TrieRecord × TrieNode TrieRecord × Nat × Nat) :=
  if rec.length < 8 then some acc
  else
    let r2 := GetIndex acc.1 (rec.getD 2 [])
    let r3 := GetIndex r2.2 (rec.getD 3 [])
    let r4 := GetIndex r3.2 (rec.getD 4 [])
    let r5 := GetIndex r4.2 (rec.getD 5 [])
    let lat := (goParseFloat (rec.getD 6 [])).1
    let lng := (goParseFloat (rec.getD 7 [])).1
    match parseIP (trimSpace (rec.getD 0 [])), parseIP (trimSpace (rec.getD 1 [])) with
    | some sip, some eip =>
      match computePrefixLen sip eip with
      | .panicked => none
      | .err _ => some (r5.2, acc.2.1, acc.2.2.1, acc.2.2.2.1, acc.2.2.2.2)
      | .ok prefixLen =>
        let record : TrieRecord := ⟨r2.1, r3.1, r4.1, r5.1, lat, lng⟩
        match toV4 sip with
        | some sip4 =>
          match insertTrie acc.2.1 sip4 prefixLen record with
          | none => none
          | some t4n => some (r5.2, t4n, acc.2.2.1, acc.2.2.2.1 + 1, acc.2.2.2.2)
        | none =>
          match insertTrie acc.2.2.1 sip prefixLen record with
          | none => none
          | some t6n => some (r5.2, acc.2.1, t6n, acc.2.2.2.1, acc.2.2.2.2 + 1)
    | _, _ => some (r5.2, acc.2.1, acc.2.2.1, acc.2.2.2.1, acc.2.2.2.2)

/-- LoadDBIP from the source, starting from the rows already read out of the
CSV: fold the row loop from fresh (non-nil) roots, then install the new tries
and the grown string table; also returns the v4 and v6 insert counts. -/
def LoadDBIP (g : IPGeo) (records : List (List GoStr)) : Option (IPGeo × Nat × Nat) :=
  (records.foldlM processDBIPRow
      (g.stringTable, TrieNode.node .nil .nil none, TrieNode.node .nil .nil none, 0, 0)).map
    fun res => (⟨res.2.1, res.2.2.1, res.1⟩, res.2.2.2.1, res.2.2.2.2)

/-! ### Gob/gzip engine: GeoRecord rows of loadTrieFromCSV -/

/-- GeoRecord from the gob/gzip engine: raw label strings, the CIDR text and
two float64 coordinates. -/
structure GeoRecord where
  Network : GoStr
  Country : GoStr
  Region : GoStr
  City : GoStr
  Latitude : GoFloat
  Longitude : GoFloat
deriving DecidableEq

/-- One row of the loadTrieFromCSV loop: needs at least 9 columns, parses and
validates the IP range, then parses both coordinates and skips the row if
either fails, then inserts. -/
def processCSVRow (root : TrieNode GeoRecord) (row : List GoStr) :
    Option (TrieNode GeoRecord) :=
  if row.length < 9 then some root
  else
    match parseIP (trimSpace (row.getD 0 [])), parseIP (trimSpace (row.getD 1 [])) with
    | some startIP, some endIP =>
      match computePrefixLen startIP endIP with
      | .panicked => none
      | .err _ => some root
      | .ok prefixLen =>
        if (goParseFloat (trimSpace (row.getD 7 []))).2 = false ∨
            (goParseFloat (trimSpace (row.getD 8 []))).2 = false then some root
        else
          let geo : GeoRecord :=
            ⟨ipString startIP ++ [47] ++ decByte prefixLen,
              trimSpace (row.getD 2 []), trimSpace (row.getD 3 []),
              trimSpace (row.getD 5 []),
              (goParseFloat (trimSpace (row.getD 7 []))).1,
              (goParseFloat (trimSpace (row.getD 8 []))).1⟩
          match toV4 startIP with
          | some sip4 => insertTrie root sip4 prefixLen geo
          | none => insertTrie root startIP prefixLen geo
    | _, _ => some root

/-- loadTrieFromCSV from the source, starting from the rows already read out
of the file: fold the row loop from a fresh root. -/
def loadTrieFromCSV (rows : List (List GoStr)) : Option (TrieNode GeoRecord) :=
  rows.foldlM processCSVRow (TrieNode.node .nil .nil none)

/-! ### Concrete rows used by counterexamples and witnesses -/

/-- An 8-column DB-IP row 10.0.0.0 - 10.255.255.255, US, United States,
California, Los Angeles whose latitude column is the unparseable text abc and
whose longitude is 12.5. -/
def c5BadRow : List GoStr :=
  [[49, 48, 46, 48, 46, 48, 46, 48],
    [49, 48, 46, 50, 53, 53, 46, 50, 53, 53, 46, 50, 53, 53],
    [85, 83],
    [85, 110, 105, 116, 101, 100, 32, 83, 116, 97, 116, 101, 115],
    [67, 97, 108, 105, 102, 111, 114, 110, 105, 97],
    [76, 111, 115, 32, 65, 110, 103, 101, 108, 101, 115],
    [97, 98, 99],
    [49, 50, 46, 53]]

/-- A 9-column row for loadTrieFromCSV with the latitude column (index 7)
equal to the unparseable text abc. -/
def c5BadRow9 : List GoStr :=
  [[49, 48, 46, 48, 46, 48, 46, 48],
    [49, 48, 46, 50, 53, 53, 46, 50, 53, 53, 46, 50, 53, 53],
    [85, 83],
    [67, 97, 108, 105, 102, 111, 114, 110, 105, 97],
    [120],
    [76, 111, 115, 32, 65, 110, 103, 101, 108, 101, 115],
    [120],
    [97, 98, 99],
    [49, 50, 46, 53]]

/-- A well-formed 8-column DB-IP row 10.0.0.0 - 10.255.255.255 with country
code US, country name United States, coordinates 34.05 and -118.25. -/
def c10Row : List GoStr :=
  [[49, 48, 46, 48, 46, 48, 46, 48],
    [49, 48, 46, 50, 53, 53, 46, 50, 53, 53, 46, 50, 53, 53],
    [85, 83],
    [85, 110, 105, 116, 101, 100, 32, 83, 116, 97, 116, 101, 115],
    [67, 97, 108, 105, 102, 111, 114, 110, 105, 97],
    [76, 111, 115, 32, 65, 110, 103, 101, 108, 101, 115],
    [51, 52, 46, 48, 53],
    [45, 49, 49, 56, 46, 50, 53]]

/-- A small concrete database for the cache round-trip witness: a record at
the empty v4 prefix, an empty v6 root, and the interned string US. -/
def c4G : IPGeo :=
  ⟨.node .nil .nil (some ⟨1, 2, 0, 0, .zero, .zero⟩), .node .nil .nil none,
    ⟨[[], [85, 83]], [([85, 83], 1)]⟩⟩

/-- The database built by LoadDBIP from the single row c10Row. -/
def g10 : IPGeo := ((LoadDBIP New [c10Row]).map fun res => res.1).getD New

/-! ### Cache codec (versioned-cache engine)

SaveCache writes the magic header, a uint32 version, the string table
(uint32 count, then per string a uint32 length and the raw bytes), then the
two tries through encoding/gob.  The gob stream of a trie is modelled by an
executable prefix-free stand-in codec (presence flags for the record and the
two children, as the specification describes) satisfying the gob contract:
decoding the encoding of a value from the front of a stream yields the value
and the remaining stream.  gob refuses to encode a nil top-level pointer,
hence SaveCache fails on a nil trie root. -/

/-- Four little-endian bytes of a uint32 value. -/
def u32bytes (n : Nat) : List Nat :=
  [n % 256, n / 256 % 256, n / 65536 % 256, n / 16777216 % 256]

/-- Read four little-endian bytes; none models an EOF error. -/
def readU32 : List Nat → Option (Nat × List Nat)
  | a :: b :: c :: d :: rest => some (a + 256 * b + 65536 * c + 16777216 * d, rest)
  | _ => none

/-- The string table section: per string a uint32 length then the bytes. -/
def encStrings : List GoStr → List Nat
  | [] => []
  | s :: rest => u32bytes s.length ++ s ++ encStrings rest

/-- Read back count strings, each length-prefixed; none models an EOF. -/
def readStrings : Nat → List Nat → Option (List GoStr × List Nat)
  | 0, bs => some ([], bs)
  | n + 1, bs =>
    match readU32 bs with
    | none => none
    | some (len, bs1) =>
      if len ≤ bs1.length then
        match readStrings n (bs1.drop len) with
        | none => none
        | some (rest, bs2) => some (bs1.take len :: rest, bs2)
      else none

/-- Rebuild of the lookup map done by LoadCache at position i onward:
non-empty strings map to their uint16-truncated index, later entries
shadowing earlier ones (Go map assignment in an ascending loop). -/
def buildLookup : Nat → List GoStr → List (GoStr × Nat)
  | _, [] => []
  | i, s :: rest =>
    buildLookup (i + 1) rest ++ (if s = [] then [] else [(s, i % 65536)])

/-- Unary stand-in token for a number inside the gob stream. -/
def encNat (n : Nat) : List Nat := List.replicate n 1 ++ [0]

/-- Decode the unary number token. -/
def decNat : List Nat → Option (Nat × List Nat)
  | 0 :: rest => some (0, rest)
  | 1 :: rest =>
    match decNat rest with
    | some (n, bs) => some (n + 1, bs)
    | none => none
  | _ => none

/-- Length-prefixed byte string inside the gob stream. -/
def encStr (s : GoStr) : List Nat := encNat s.length ++ s

/-- Decode a length-prefixed byte string. -/
def decStr (bs : List Nat) : Option (GoStr × List Nat) :=
  match decNat bs with
  | some (len, bs1) =>
    if len ≤ bs1.length then some (bs1.take len, bs1.drop len) else none
  | none => none

/-- An opaque float value inside the gob stream. -/
def encFloat : GoFloat → List Nat
  | .zero => [0]
  | .ofToken s => 1 :: encStr s

/-- Decode an opaque float value. -/
def decFloat : List Nat → Option (GoFloat × List Nat)
  | 0 :: rest => some (.zero, rest)
  | 1 :: rest => (decStr rest).map fun p => (.ofToken p.1, p.2)
  | _ => none

/-- A TrieRecord payload inside the gob stream. -/
def encRecA (r : TrieRecord) : List Nat :=
  encNat r.CountryCode ++ encNat r.Country ++ encNat r.Region ++ encNat r.City ++
    encFloat r.Lat ++ encFloat r.Lng

/-- Decode a TrieRecord payload. -/
def decRecA (bs : List Nat) : Option (TrieRecord × List Nat) := do
  let (cc, bs1) ← decNat bs
  let (country, bs2) ← decNat bs1
  let (region, bs3) ← decNat bs2
  let (city, bs4) ← decNat bs3
  let (lat, bs5) ← decFloat bs4
  let (lng, bs6) ← decFloat bs5
  return (⟨cc, country, region, city, lat, lng⟩, bs6)

/-- Presence flag plus payload for an optional record. -/
def encOptR {α : Type} (encR : α → List Nat) : Option α → List Nat
  | none => [0]
  | some a => 1 :: encR a

/-- Decode the optional record. -/
def decOptR {α : Type} (decR : List Nat → Option (α × List Nat)) :
    List Nat → Option (Option α × List Nat)
  | 0 :: rest => some (none, rest)
  | 1 :: rest => (decR rest).map fun p => (some p.1, p.2)
  | _ => none

/-- The recursive trie stream: a presence flag for the node, then the
optional record, then the left and right subtrees. -/
def encTrie {α : Type} (encR : α → List Nat) : TrieNode α → List Nat
  | .nil => [0]
  | .node l r rec => 1 :: (encOptR encR rec ++ (encTrie encR l ++ encTrie encR r))

/-- Node count of a trie, a lower bound for the decoding fuel. -/
def trieSize {α : Type} : TrieNode α → Nat
  | .nil => 0
  | .node l r _ => 1 + trieSize l + trieSize r

/-- Decode a trie from the front of the stream; the fuel only needs to reach
the node count of the encoded trie. -/
def decTrie {α : Type} (decR : List Nat → Option (α × List Nat)) :
    Nat → List Nat → Option (TrieNode α × List Nat)
  | _, 0 :: rest => some (.nil, rest)
  | fuel + 1, 1 :: rest =>
    match decOptR decR rest with
    | none => none
    | some (rec, rest1) =>
      match decTrie decR fuel rest1 with
      | none => none
      | some (l, rest2) =>
        match decTrie decR fuel rest2 with
        | none => none
        | some (r, rest3) => some (.node l r rec, rest3)
  | _, _ => none

/-- The magic header IPGEO_CACHE as bytes. -/
def cacheHeader : List Nat := [73, 80, 71, 69, 79, 95, 67, 65, 67, 72, 69]

/-- The current cache format version. -/
def cacheVersion : Nat := 2

/-- SaveCache from the source: header, version, string table, then the two
tries through gob; gob cannot encode a nil top-level pointer, so a database
with a nil trie fails to save. -/
def SaveCache (g : IPGeo) : Option (List Nat) :=
  if g.trieV4 = .nil ∨ g.trieV6 = .nil then none
  else
    some (cacheHeader ++ (u32bytes cacheVersion ++ (u32bytes g.stringTable.strings.length ++
      (encStrings g.stringTable.strings ++
        (encTrie encRecA g.trieV4 ++ encTrie encRecA g.trieV6)))))

/-- LoadCache from the source: verify the header bytes, then the version,
then read the string table (rebuilding the lookup map with uint16-truncated
indices, skipping the empty string), then gob-decode the two tries. -/
def LoadCache (bs : List Nat) : Except String IPGeo :=
  if bs.length < 11 then .error "unexpected EOF reading cache header"
  else if bs.take 11 ≠ cacheHeader then .error "invalid cache file format"
  else
    match readU32 (bs.drop 11) with
    | none => .error "unexpected EOF reading cache version"
    | some (ver, bs1) =>
      if ver ≠ cacheVersion then .error "incompatible cache version"
      else
        match readU32 bs1 with
        | none => .error "unexpected EOF reading string count"
        | some (count, bs2) =>
          match readStrings count bs2 with
          | none => .error "unexpected EOF reading string table"
          | some (strs, bs3) =>
            match decTrie decRecA bs3.length bs3 with
            | none => .error "gob decode error"
            | some (t4, bs4) =>
              match decTrie decRecA bs4.length bs4 with
              | none => .error "gob decode error"
              | some (t6, _) => .ok ⟨t4, t6, ⟨strs, buildLookup 0 strs⟩⟩

/-! ### Gob/gzip engine: cache files and the loadTrie fallback chain -/

/-- A GeoRecord payload inside the gob stream of the gob/gzip engine. -/
def encRecB (r : GeoRecord) : List Nat :=
  encStr r.Network ++ encStr r.Country ++ encStr r.Region ++ encStr r.City ++
    encFloat r.Latitude ++ encFloat r.Longitude

/-- Decode a GeoRecord payload. -/
def decRecB (bs : List Nat) : Option (GeoRecord × List Nat) := do
  let (nw, bs1) ← decStr bs
  let (country, bs2) ← decStr bs1
  let (region, bs3) ← decStr bs2
  let (city, bs4) ← decStr bs3
  let (lat, bs5) ← decFloat bs4
  let (lng, bs6) ← decFloat bs5
  return (⟨nw, country, region, city, lat, lng⟩, bs6)

/-- loadTrieFromCache from the source: gzip plus gob decoding of a cache
file, modelled by the stand-in trie codec. -/
def loadTrieFromCache (bs : List Nat) : Except String (TrieNode GeoRecord) :=
  match decTrie decRecB bs.length bs with
  | some (t, _) => .ok t
  | none => .error "error decoding cache file"

/-- loadTrieFromEmbedded from the source: same decoding applied to the
compiled-in snapshot bytes. -/
def loadTrieFromEmbedded (bs : List Nat) : Except String (TrieNode GeoRecord) :=
  match decTrie decRecB bs.length bs with
  | some (t, _) => .ok t
  | none => .error "error decoding embedded trie"

/-- The on-disk state seen by loadTrie: optional cache file and optional CSV
file, each with a modification time; the CSV file is carried as its parsed
rows. -/
structure DiskState where
  cacheFile : Option (Nat × List Nat)
  csvFile : Option (Nat × List (List GoStr))

/-- Steps two and three of loadTrie: build from the on-disk CSV when present
(the best-effort cache write has no bearing on the returned trie), else
download (the parameter carries the downloaded rows, none meaning failure)
and build, else fall back to the embedded snapshot, else fail. -/
def loadTrieCSVOrDownload (embedded : List Nat) (disk : DiskState)
    (download : Option (List (List GoStr))) :
    Option (Except String (TrieNode GeoRecord)) :=
  match disk.csvFile with
  | some (_, rows) => (loadTrieFromCSV rows).map Except.ok
  | none =>
    match download with
    | some rows => (loadTrieFromCSV rows).map Except.ok
    | none =>
      if embedded ≠ [] then some (loadTrieFromEmbedded embedded)
      else some (.error "failed to download CSV")

/-- loadTrie from the source: a non-empty embedded snapshot is used first,
unconditionally.  Otherwise the on-disk cache is tried when it exists and is
newer than the CSV (or the CSV is missing), falling through to the CSV and
download steps when absent or failing to decode. -/
def loadTrie (embedded : List Nat) (disk : DiskState)
    (download : Option (List (List GoStr))) :
    Option (Except String (TrieNode GeoRecord)) :=
  if embedded ≠ [] then some (loadTrieFromEmbedded embedded)
  else
    match disk.cacheFile with
    | some (cmt, cbytes) =>
      match disk.csvFile with
      | some (csvmt, _) =>
        if csvmt < cmt then
          match loadTrieFromCache cbytes with
          | .ok t => some (.ok t)
          | .error _ => loadTrieCSVOrDownload embedded disk download
        else loadTrieCSVOrDownload embedded disk download
      | none =>
        match loadTrieFromCache cbytes with
        | .ok t => some (.ok t)
        | .error _ => loadTrieCSVOrDownload embedded disk download
    | none => loadTrieCSVOrDownload embedded disk download

/-- Decidable equality of Except values, for evaluating the counterexample. -/
instance {ε α : Type} [DecidableEq ε] [DecidableEq α] : DecidableEq (Except ε α) := fun x y =>
  match x, y with
  | .ok a, .ok b =>
    if h : a = b then isTrue (by rw [h]) else isFalse (by intro hc; cases hc; exact h rfl)
  | .error e, .error f =>
    if h : e = f then isTrue (by rw [h]) else isFalse (by intro hc; cases hc; exact h rfl)
  | .ok _, .error _ => isFalse (by intro hc; cases hc)
  | .error _, .ok _ => isFalse (by intro hc; cases hc)

/-- The record of the embedded snapshot used by the C9 counterexample. -/
def c9TrieA : TrieNode GeoRecord :=
  .node .nil .nil (some ⟨[101], [69], [], [], .zero, .zero⟩)

/-- The embedded snapshot bytes of the C9 counterexample. -/
def c9Embedded : List Nat := encTrie encRecB c9TrieA

/-- A valid CSV source of one good row (10.0.0.0/8, US) for C9. -/
def c9Rows : List (List GoStr) :=
  [[[49, 48, 46, 48, 46, 48, 46, 48],
    [49, 48, 46, 50, 53, 53, 46, 50, 53, 53, 46, 50, 53, 53],
    [85, 83],
    [67, 97, 108],
    [120],
    [76, 65],
    [120],
    [51, 52, 46, 48, 53],
    [49, 50, 46, 53]]]

/-- Disk state for C9: no cache file, a valid CSV source. -/
def c9Disk : DiskState := ⟨none, some (0, c9Rows)⟩

/-- C1: claimed, for prefixes P1 of length L1 and P2 of length L2 with
L1 < L2 and P2 inside P1, a lookup of an address inside P2 returns the record
of P2.  The code violates this at L2 = maxBits: lookupTrie examines the
records of the nodes at depths 0 to maxBits - 1 only, so a record attached at
depth 32 by a /32 insertion is never returned and the /8 record wins.  Here
R1 = 1 is inserted for 10.0.0.0/8 and R2 = 2 for 10.1.2.3/32; looking up
10.1.2.3 with maxBits = 32 returns R1, not R2. -/
theorem c1_lookup_misses_depth_maxBits_record :
    (((insertTrie (TrieNode.node .nil .nil none) [10, 0, 0, 0] 8 (1 : Nat)).bind
        fun t => insertTrie t [10, 1, 2, 3] 32 2).map
      fun t => lookupTrie t [10, 1, 2, 3] 32) = some (some (some 1)) ∧
    (1 : Nat) ≠ 2 := by decide

/-- C3: claimed, computePrefixLen rejects every mixed-family pair with an
error and never panics.  The code does neither: on start :: (16 zero bytes)
and end 255.255.255.255 (IPv4-mapped) the verification loop reaches bit 32 of
a 4-byte address and the byte index goes out of range, a runtime panic; and
the mixed pair start 0.0.0.0 (IPv4-mapped), end ffff:ffff:: is accepted with
prefix length 0 instead of being rejected. -/
theorem c3_computePrefixLen_mixed_family_behaviour :
    computePrefixLen (List.replicate 16 0)
        [0, 0, 0, 0, 0, 0, 0, 0, 0, 0, 255, 255, 255, 255, 255, 255] = .panicked ∧
    computePrefixLen [0, 0, 0, 0, 0, 0, 0, 0, 0, 0, 255, 255, 0, 0, 0, 0]
        [255, 255, 255, 255, 0, 0, 0, 0, 0, 0, 0, 0, 0, 0, 0, 0] = .ok 0 := by
  decide

/-! ### Properties of computePrefixLen (claim C2) -/

theorem toV4_length {s s4 : List Nat} (h : toV4 s = some s4) : s4.length = 4 := by
  unfold toV4 at h
  split at h
  next h4 =>
    cases h
    exact h4
  next =>
    split at h
    next hcond =>
      cases h
      simp [List.length_drop, hcond.1]
    next => cases h

theorem toV4_of_length4 {s : List Nat} (h : s.length = 4) : toV4 s = some s := by
  simp [toV4, h]

theorem normIP_v4 {s s4 : List Nat} (h : toV4 s = some s4) : normIP s = s4 := by
  simp [normIP, h]

theorem normIP_v6 {s : List Nat} (h : toV4 s = none) : normIP s = s := by
  simp [normIP, h]

theorem getBit_normIP (s : List Nat) (i : Nat) : getBit (normIP s) i = getBit s i := by
  cases h : toV4 s with
  | some s4 => simp only [getBit, normIP_v4 h, toV4_of_length4 (toV4_length h), h]
  | none => rw [normIP_v6 h]

theorem getBit_isSome_v4 {s s4 : List Nat} (h : toV4 s = some s4) {i : Nat}
    (hi : i < 32) : (getBit s i).isSome := by
  have hl : i / 8 < s4.length := by rw [toV4_length h]; omega
  simp only [getBit, h]
  simp [List.get?_eq_getElem?, List.getElem?_eq_getElem hl]

theorem getBit_isSome_v6 {s : List Nat} (h : toV4 s = none) (hl : s.length = 16)
    {i : Nat} (hi : i < 128) : (getBit s i).isSome := by
  have h16 : to16 s = some s := by simp [to16, hl]
  have hli : i / 8 < s.length := by rw [hl]; omega
  simp only [getBit, h, h16]
  simp [List.get?_eq_getElem?, List.getElem?_eq_getElem hli]

theorem firstDiff_spec (s e : List Nat) (fuel : Nat) :
    ∀ i, (∀ j, i ≤ j → j < i + fuel → (getBit s j).isSome ∧ (getBit e j).isSome) →
    ∃ p, firstDiff s e i fuel = some p ∧ i ≤ p ∧ p ≤ i + fuel ∧
      (∀ j, i ≤ j → j < p → getBit s j = getBit e j) ∧
      (p < i + fuel → getBit s p ≠ getBit e p) := by
  induction fuel with
  | zero =>
    intro i _
    exact ⟨i, rfl, Nat.le_refl i, by omega, fun j h1 h2 => by omega, fun h => by omega⟩
  | succ f ih =>
    intro i h
    obtain ⟨hs, he⟩ := h i (Nat.le_refl i) (by omega)
    obtain ⟨bs, hbs⟩ := Option.isSome_iff_exists.mp hs
    obtain ⟨be, hbe⟩ := Option.isSome_iff_exists.mp he
    by_cases hb : bs = be
    · subst hb
      obtain ⟨p, hp, hpi, hple, heq, hne⟩ :=
        ih (i + 1) (fun j h1 h2 => h j (by omega) (by omega))
      refine ⟨p, ?_, by omega, by omega, ?_, fun hlt => hne (by omega)⟩
      · simp only [firstDiff, hbs, hbe, if_pos rfl]
        exact hp
      · intro j h1 h2
        rcases Nat.eq_or_lt_of_le h1 with h1 | h1
        · rw [← h1, hbs, hbe]
        · exact heq j h1 h2
    · refine ⟨i, ?_, Nat.le_refl i, by omega, fun j h1 h2 => by omega, fun _ => ?_⟩
      · simp only [firstDiff, hbs, hbe, if_neg hb]
      · rw [hbs, hbe]
        exact fun hcc => hb (Option.some.inj hcc)

theorem verifyBits_spec (s e : List Nat) (fuel : Nat) :
    ∀ i, (∀ j, i ≤ j → j < i + fuel → (getBit s j).isSome ∧ (getBit e j).isSome) →
    (verifyBits s e i fuel = some none ↔
      ∀ j, i ≤ j → j < i + fuel → getBit s j = some 0 ∧ getBit e j = some 1) := by
  induction fuel with
  | zero =>
    intro i _
    constructor
    · intro _ j h1 h2; omega
    · intro _; rfl
  | succ f ih =>
    intro i h
    obtain ⟨hs, he⟩ := h i (Nat.le_refl i) (by omega)
    obtain ⟨bs, hbs⟩ := Option.isSome_iff_exists.mp hs
    obtain ⟨be, hbe⟩ := Option.isSome_iff_exists.mp he
    by_cases h0 : bs = 0
    · subst h0
      by_cases h1 : be = 1
      · subst h1
        have hunf : verifyBits s e i (f + 1) = verifyBits s e (i + 1) f := by
          simp [verifyBits, hbs, hbe]
        have hrec := ih (i + 1) (fun j hj1 hj2 => h j (by omega) (by omega))
        rw [hunf, hrec]
        constructor
        · intro hall j hj1 hj2
          rcases Nat.eq_or_lt_of_le hj1 with hj | hj
          · constructor
            · rw [← hj]; exact hbs
            · rw [← hj]; exact hbe
          · exact hall j hj (by omega)
        · intro hall j hj1 hj2
          exact hall j (by omega) (by omega)
      · have hunf : verifyBits s e i (f + 1) =
            some (some "end IP not a proper broadcast for a CIDR block") := by
          simp [verifyBits, hbs, hbe, h1]
        rw [hunf]
        constructor
        · intro hc; simp at hc
        · intro hall
          exfalso
          have h2 := (hall i (Nat.le_refl i) (by omega)).2
          rw [hbe] at h2
          exact h1 (Option.some.inj h2)
    · have hunf : verifyBits s e i (f + 1) =
          some (some "start IP not aligned for a CIDR block") := by
        simp [verifyBits, hbs, h0]
      rw [hunf]
      constructor
      · intro hc; simp at hc
      · intro hall
        exfalso
        have h2 := (hall i (Nat.le_refl i) (by omega)).1
        rw [hbs] at h2
        exact h0 (Option.some.inj h2)

/-- C2: the CIDR range validator accepts a same-family pair with prefix
length p exactly when the two addresses agree on the first p bits, every bit
of start from position p on is 0 and every bit of end from position p on
is 1 (that is, end = start with the low bits set and start prefix-aligned). -/
theorem c2_computePrefixLen_iff (s e : List Nat) (n p : Nat)
    (h : sameFamily s e n) :
    computePrefixLen s e = .ok p ↔
      p ≤ n ∧ (∀ i, i < p → getBit s i = getBit e i) ∧
        ∀ i, i < n → p ≤ i → getBit s i = some 0 ∧ getBit e i = some 1 := by
  have hdef : ∀ j, j < n → (getBit s j).isSome ∧ (getBit e j).isSome := by
    intro j hj
    rcases h with ⟨hn, hs4, he4⟩ | ⟨hn, hsl, hs4, hel, he4⟩
    · obtain ⟨s4, hs⟩ := Option.isSome_iff_exists.mp hs4
      obtain ⟨e4, he⟩ := Option.isSome_iff_exists.mp he4
      exact ⟨getBit_isSome_v4 hs (by omega), getBit_isSome_v4 he (by omega)⟩
    · exact ⟨getBit_isSome_v6 hs4 hsl (by omega), getBit_isSome_v6 he4 hel (by omega)⟩
  have hmax : familyBits (normIP s) = n := by
    rcases h with ⟨hn, hs4, _⟩ | ⟨hn, _, hs4, _, _⟩
    · obtain ⟨s4, hs⟩ := Option.isSome_iff_exists.mp hs4
      rw [normIP_v4 hs]
      unfold familyBits
      rw [toV4_of_length4 (toV4_length hs), hn]
    · rw [normIP_v6 hs4]
      unfold familyBits
      rw [hs4, hn]
  have hdefn : ∀ j, (0 : Nat) ≤ j → j < 0 + n →
      (getBit (normIP s) j).isSome ∧ (getBit (normIP e) j).isSome := by
    intro j _ hj
    rw [getBit_normIP, getBit_normIP]
    exact hdef j (by omega)
  obtain ⟨q, hfd, hq0, hqn, heq, hne⟩ := firstDiff_spec (normIP s) (normIP e) n 0 hdefn
  have heq' : ∀ j, j < q → getBit s j = getBit e j := by
    intro j hj
    have hj2 := heq j (by omega) hj
    rwa [getBit_normIP, getBit_normIP] at hj2
  have hne' : q < n → getBit s q ≠ getBit e q := by
    intro hlt
    have hq2 := hne (by omega)
    rwa [getBit_normIP, getBit_normIP] at hq2
  have hvb := verifyBits_spec (normIP s) (normIP e) (n - q) q
    (fun j h1 h2 => hdefn j (by omega) (by omega))
  constructor
  · intro hok
    simp only [computePrefixLen, hmax, hfd] at hok
    cases hv : verifyBits (normIP s) (normIP e) q (n - q) with
    | none => rw [hv] at hok; cases hok
    | some o =>
      cases o with
      | some msg => rw [hv] at hok; cases hok
      | none =>
        rw [hv] at hok
        have hpq : q = p := by cases hok; rfl
        subst hpq
        refine ⟨by omega, heq', ?_⟩
        intro i hi hpi
        have hcond := hvb.mp hv i hpi (by omega)
        rwa [getBit_normIP, getBit_normIP] at hcond
  · rintro ⟨hpn, hagree, hsuffix⟩
    have hqp : q = p := by
      rcases Nat.lt_trichotomy p q with hlt | heqq | hlt
      · exfalso
        have h1 := heq' p hlt
        rcases Nat.lt_or_ge p n with hpn' | hpn'
        · have h2 := hsuffix p hpn' (Nat.le_refl p)
          rw [h2.1, h2.2] at h1
          cases h1
        · omega
      · omega
      · exfalso
        exact hne' (by omega) (hagree q hlt)
    subst hqp
    have hv : verifyBits (normIP s) (normIP e) q (n - q) = some none := by
      rw [hvb]
      intro j h1 h2
      have hcond := hsuffix j (by omega) h1
      rwa [getBit_normIP, getBit_normIP]
    simp only [computePrefixLen, hmax, hfd, hv]

/-- Witness for C2 at the example pairs of the specification. -/
theorem c2_witness :
    computePrefixLen [192, 168, 1, 0] [192, 168, 1, 255] = .ok 24 ∧
    computePrefixLen [192, 168, 1, 1] [192, 168, 1, 255] =
      .err "start IP not aligned for a CIDR block" :=
  ⟨(c2_computePrefixLen_iff [192, 168, 1, 0] [192, 168, 1, 255] 32 24
      (by decide)).mpr (by decide),
    by decide⟩

/-! ### String interning (claims C7 and C8) -/

/-- C7: for a non-empty string s on a well-formed table with fewer than
2 to the 16 strings, the index returned by GetIndex resolves through
GetString (on the updated table) back to s, whether s was already present or
freshly appended; and GetString of any out-of-range index is the empty
string. -/
theorem c7_intern_resolve_roundtrip (st : StringTable) (s : GoStr) (j : Nat)
    (hwf : WFTable st) (hsize : st.strings.length < 65536) (hs : s ≠ [])
    (hj : st.strings.length ≤ j) :
    GetString (GetIndex st s).2 (GetIndex st s).1 = s ∧ GetString st j = [] := by
  constructor
  · unfold GetIndex
    rw [if_neg hs]
    cases hfind : lookupFind st.lookup s with
    | some idx =>
      obtain ⟨hlt, hget⟩ := hwf s idx hfind
      show GetString st idx = s
      unfold GetString
      rw [dif_pos hlt]
      exact hget
    | none =>
      show GetString ⟨st.strings ++ [s], (s, st.strings.length % 65536) :: st.lookup⟩
        (st.strings.length % 65536) = s
      have hmod : st.strings.length % 65536 = st.strings.length :=
        Nat.mod_eq_of_lt hsize
      rw [hmod]
      unfold GetString
      have hlt : st.strings.length < (st.strings ++ [s]).length := by
        simp [List.length_append]
      rw [dif_pos hlt]
      simp
  · unfold GetString
    rw [dif_neg (by omega)]

/-- Witness for C7 on a fresh table and the string US. -/
theorem c7_witness :
    GetString (GetIndex NewStringTable [85, 83]).2 (GetIndex NewStringTable [85, 83]).1 =
      [85, 83] ∧ GetString NewStringTable 5 = [] :=
  c7_intern_resolve_roundtrip NewStringTable [85, 83] 5
    (fun s i h => by simp [NewStringTable, lookupFind] at h)
    (by decide) (by decide) (by decide)

/-- C8: GetIndex is idempotent on every table state: a second GetIndex of the
same string returns the same index, and GetIndex of the empty string returns
0 and leaves the table (strings and lookup map) unchanged. -/
theorem c8_getIndex_idempotent (st : StringTable) (s : GoStr) :
    (GetIndex (GetIndex st s).2 s).1 = (GetIndex st s).1 ∧
    GetIndex st [] = (0, st) := by
  constructor
  · by_cases hs : s = []
    · subst hs
      simp [GetIndex]
    · cases hfind : lookupFind st.lookup s with
      | some idx => simp [GetIndex, hs, hfind]
      | none => simp [GetIndex, hs, hfind, lookupFind]
  · simp [GetIndex]

/-! ### CSV ingestion of coordinates (claim C5) -/

/-- C5 counterexample: the claim says a row whose latitude fails float
parsing is skipped during CSV ingestion.  LoadDBIP discards the ParseFloat
error: on the single row c5BadRow (latitude text abc), the v4 insert count is
1 and the trie contains the record of the row with the zero value in Lat, so
the record derived from the row was inserted. -/
theorem c5_counterexample_loaddbip :
    validFloat [97, 98, 99] = false ∧
    (LoadDBIP New [c5BadRow]).map
        (fun res => (res.2.1, lookupTrie res.1.trieV4 [10, 1, 2, 3] 32)) =
      some (1, some (some ⟨1, 2, 3, 4, .zero, .ofToken [49, 50, 46, 53]⟩)) := by
  decide

/-- C5 amended: in the loadTrieFromCSV pipeline the skip does happen: if
either coordinate column of a row fails float parsing and the row loop
completes without panicking, the trie is returned unchanged. -/
theorem c5_amended_csv_skips_bad_float (root t2 : TrieNode GeoRecord)
    (row : List GoStr)
    (hbad : validFloat (trimSpace (row.getD 7 [])) = false ∨
      validFloat (trimSpace (row.getD 8 [])) = false)
    (hdone : processCSVRow root row = some t2) : t2 = root := by
  have hbad2 : (goParseFloat (trimSpace (row.getD 7 []))).2 = false ∨
      (goParseFloat (trimSpace (row.getD 8 []))).2 = false := by
    simpa [goParseFloat] using hbad
  unfold processCSVRow at hdone
  split at hdone <;>
    first
    | exact (Option.some.inj hdone).symm
    | exact Option.noConfusion hdone
    | (split at hdone <;>
        first
        | exact (Option.some.inj hdone).symm
        | exact Option.noConfusion hdone
        | (split at hdone <;>
            first
            | exact (Option.some.inj hdone).symm
            | exact Option.noConfusion hdone
            | (rename_i hcond
               exact absurd hbad2 hcond)))

/-- Witness for the amended C5 on the concrete row c5BadRow9. -/
theorem c5_witness :
    processCSVRow (TrieNode.node .nil .nil none) c5BadRow9 =
      some (TrieNode.node .nil .nil none) := by
  cases hd : processCSVRow (TrieNode.node .nil .nil none) c5BadRow9 with
  | none => exact absurd hd (by decide)
  | some t =>
    rw [c5_amended_csv_skips_bad_float (TrieNode.node .nil .nil none) t c5BadRow9
      (by decide) hd]

/-! ### Country returns the country-name field (claim C10) -/

/-- C10: whenever a lookup in the versioned-cache engine finds a record r,
Country and CountryByIP return the resolution of the Country field of r (the
country-name label interned from the fourth CSV column), not the CountryCode
field, despite their documentation promising the ISO 3166-1 alpha-2 code. -/
theorem c10_country_uses_country_name_field (g : IPGeo) (s : GoStr)
    (ip ip4 : List Nat) (r : TrieRecord)
    (hp : parseIP s = some ip) (h4 : toV4 ip = some ip4)
    (hrec : lookupTrie g.trieV4 ip4 32 = some (some r)) :
    Country g s = some (GetString g.stringTable r.Country) ∧
    CountryByIP g ip = some (GetString g.stringTable r.Country) := by
  have hl : Lookup g ip = some (resolveLookup g.stringTable (some r)) := by
    unfold Lookup
    rw [h4]
    show (lookupTrie g.trieV4 ip4 32).map (resolveLookup g.stringTable) =
      some (resolveLookup g.stringTable (some r))
    rw [hrec]
    rfl
  constructor
  · simp [Country, countryByIP, hp, hl, resolveLookup]
  · simp [CountryByIP, countryByIP, hl, resolveLookup]

/-- Witness for C10: on the database built from c10Row, Country of 10.1.2.3
is the country name United States, which differs from the stored two-letter
code US. -/
theorem c10_witness :
    Country g10 [49, 48, 46, 49, 46, 50, 46, 51] =
      some [85, 110, 105, 116, 101, 100, 32, 83, 116, 97, 116, 101, 115] ∧
    ([85, 110, 105, 116, 101, 100, 32, 83, 116, 97, 116, 101, 115] : GoStr) ≠ [85, 83] := by
  constructor
  · have h := c10_country_uses_country_name_field g10 [49, 48, 46, 49, 46, 50, 46, 51]
      [0, 0, 0, 0, 0, 0, 0, 0, 0, 0, 255, 255, 10, 1, 2, 3] [10, 1, 2, 3]
      ⟨1, 2, 3, 4, .ofToken [51, 52, 46, 48, 53], .ofToken [45, 49, 49, 56, 46, 50, 53]⟩
      (by decide) (by decide) (by decide)
    exact h.1.trans (by decide)
  · decide

/-! ### Cache codec round trip (claims C4 and C6) -/

theorem readU32_u32bytes (n : Nat) (rest : List Nat) (h : n < 4294967296) :
    readU32 (u32bytes n ++ rest) = some (n, rest) := by
  simp only [u32bytes, List.cons_append, List.nil_append, readU32]
  have hval : n % 256 + 256 * (n / 256 % 256) + 65536 * (n / 65536 % 256) +
      16777216 * (n / 16777216 % 256) = n := by omega
  rw [hval]

theorem decNat_encNat (n : Nat) (rest : List Nat) :
    decNat (encNat n ++ rest) = some (n, rest) := by
  induction n with
  | zero => simp [encNat, decNat]
  | succ m ih =>
    have hsh : encNat (m + 1) ++ rest = 1 :: (encNat m ++ rest) := by
      simp [encNat, List.replicate_succ]
    rw [hsh]
    simp only [decNat, ih]

theorem decStr_encStr (s : GoStr) (rest : List Nat) :
    decStr (encStr s ++ rest) = some (s, rest) := by
  simp only [decStr, encStr, List.append_assoc, decNat_encNat]
  rw [if_pos (by simp)]
  rw [List.take_left, List.drop_left]

theorem decFloat_encFloat (f : GoFloat) (rest : List Nat) :
    decFloat (encFloat f ++ rest) = some (f, rest) := by
  cases f with
  | zero => simp [encFloat, decFloat]
  | ofToken s => simp [encFloat, decFloat, decStr_encStr]

theorem decRecA_encRecA (r : TrieRecord) (rest : List Nat) :
    decRecA (encRecA r ++ rest) = some (r, rest) := by
  simp [decRecA, encRecA, List.append_assoc, decNat_encNat, decFloat_encFloat]

theorem decOptR_encOptR {α : Type} (encR : α → List Nat)
    (decR : List Nat → Option (α × List Nat))
    (hR : ∀ a rest, decR (encR a ++ rest) = some (a, rest)) (o : Option α)
    (rest : List Nat) : decOptR decR (encOptR encR o ++ rest) = some (o, rest) := by
  cases o with
  | none => simp [encOptR, decOptR]
  | some a => simp [encOptR, decOptR, hR]

theorem trieSize_le_encTrie {α : Type} (encR : α → List Nat) (t : TrieNode α) :
    trieSize t ≤ (encTrie encR t).length := by
  induction t with
  | nil => simp [trieSize, encTrie]
  | node l r rec ihl ihr =>
    simp only [trieSize, encTrie, List.length_cons, List.length_append]
    omega

theorem decTrie_encTrie {α : Type} (encR : α → List Nat)
    (decR : List Nat → Option (α × List Nat))
    (hR : ∀ a rest, decR (encR a ++ rest) = some (a, rest)) (t : TrieNode α) :
    ∀ (fuel : Nat) (rest : List Nat), trieSize t ≤ fuel →
      decTrie decR fuel (encTrie encR t ++ rest) = some (t, rest) := by
  induction t with
  | nil =>
    intro fuel rest _
    simp [encTrie, decTrie]
  | node l r rec ihl ihr =>
    intro fuel rest hfuel
    cases fuel with
    | zero => simp [trieSize] at hfuel
    | succ f =>
      have hl : trieSize l ≤ f := by simp [trieSize] at hfuel; omega
      have hr : trieSize r ≤ f := by simp [trieSize] at hfuel; omega
      have hsh : encTrie encR (.node l r rec) ++ rest =
          1 :: (encOptR encR rec ++ (encTrie encR l ++ (encTrie encR r ++ rest))) := by
        simp [encTrie]
      rw [hsh]
      have h1 := decOptR_encOptR encR decR hR rec (encTrie encR l ++ (encTrie encR r ++ rest))
      have h2 := ihl f (encTrie encR r ++ rest) hl
      have h3 := ihr f rest hr
      simp only [decTrie, h1, h2, h3]

theorem readStrings_encStrings (L : List GoStr) (rest : List Nat)
    (h : ∀ s ∈ L, s.length < 4294967296) :
    readStrings L.length (encStrings L ++ rest) = some (L, rest) := by
  induction L with
  | nil => simp [encStrings, readStrings]
  | cons s r ih =>
    have hs : s.length < 4294967296 := h s (List.mem_cons_self s r)
    have hr := ih (fun x hx => h x (List.mem_cons_of_mem s hx))
    have hsh : encStrings (s :: r) ++ rest =
        u32bytes s.length ++ (s ++ (encStrings r ++ rest)) := by
      simp [encStrings]
    show readStrings (r.length + 1) (encStrings (s :: r) ++ rest) = some (s :: r, rest)
    rw [hsh]
    simp only [readStrings, readU32_u32bytes s.length _ hs]
    rw [if_pos (by simp)]
    rw [List.take_left, List.drop_left, hr]

theorem GetString_strings_congr {st1 st2 : StringTable}
    (h : st1.strings = st2.strings) (i : Nat) : GetString st1 i = GetString st2 i := by
  simp [GetString, h]

theorem resolveLookup_strings_congr {st1 st2 : StringTable}
    (h : st1.strings = st2.strings) (o : Option TrieRecord) :
    resolveLookup st1 o = resolveLookup st2 o := by
  cases o with
  | none => rfl
  | some r => simp [resolveLookup, GetString_strings_congr h]

theorem Lookup_congr {g1 g2 : IPGeo} (h4 : g1.trieV4 = g2.trieV4)
    (h6 : g1.trieV6 = g2.trieV6) (hs : g1.stringTable.strings = g2.stringTable.strings)
    (ip : List Nat) : Lookup g1 ip = Lookup g2 ip := by
  have hres : resolveLookup g1.stringTable = resolveLookup g2.stringTable :=
    funext (resolveLookup_strings_congr hs)
  cases hip : toV4 ip with
  | some ip4 => simp [Lookup, hip, h4, hres]
  | none => simp [Lookup, hip, h6, hres]

theorem LoadCache_wellformed (strs : List GoStr) (t4 t6 : TrieNode TrieRecord)
    (hcount : strs.length < 4294967296) (hlen : ∀ s ∈ strs, s.length < 4294967296) :
    LoadCache (cacheHeader ++ (u32bytes cacheVersion ++ (u32bytes strs.length ++
        (encStrings strs ++ (encTrie encRecA t4 ++ encTrie encRecA t6))))) =
      .ok ⟨t4, t6, ⟨strs, buildLookup 0 strs⟩⟩ := by
  have h11 : cacheHeader.length = 11 := by decide
  set X : List Nat := u32bytes cacheVersion ++ (u32bytes strs.length ++
    (encStrings strs ++ (encTrie encRecA t4 ++ encTrie encRecA t6))) with hX
  have hnotshort : ¬ (cacheHeader ++ X).length < 11 := by
    simp [List.length_append, h11]
  have htake : (cacheHeader ++ X).take 11 = cacheHeader := by
    rw [show (11 : Nat) = cacheHeader.length from h11.symm]
    exact List.take_left cacheHeader X
  have hdrop : (cacheHeader ++ X).drop 11 = X := by
    rw [show (11 : Nat) = cacheHeader.length from h11.symm]
    exact List.drop_left cacheHeader X
  have hver : readU32 X = some (cacheVersion, u32bytes strs.length ++
      (encStrings strs ++ (encTrie encRecA t4 ++ encTrie encRecA t6))) := by
    rw [hX]
    exact readU32_u32bytes cacheVersion _ (by decide)
  have hcnt : readU32 (u32bytes strs.length ++
      (encStrings strs ++ (encTrie encRecA t4 ++ encTrie encRecA t6))) =
      some (strs.length, encStrings strs ++ (encTrie encRecA t4 ++ encTrie encRecA t6)) :=
    readU32_u32bytes strs.length _ hcount
  have hstrs : readStrings strs.length
      (encStrings strs ++ (encTrie encRecA t4 ++ encTrie encRecA t6)) =
      some (strs, encTrie encRecA t4 ++ encTrie encRecA t6) :=
    readStrings_encStrings strs _ hlen
  have ht4 : decTrie decRecA ((encTrie encRecA t4).length + (encTrie encRecA t6).length)
      (encTrie encRecA t4 ++ encTrie encRecA t6) = some (t4, encTrie encRecA t6) := by
    apply decTrie_encTrie encRecA decRecA decRecA_encRecA t4
    have := trieSize_le_encTrie encRecA t4
    simp [List.length_append]
    omega
  have ht6 : decTrie decRecA (encTrie encRecA t6).length (encTrie encRecA t6) =
      some (t6, []) := by
    have hnil : encTrie encRecA t6 = encTrie encRecA t6 ++ [] := by simp
    rw [hnil]
    apply decTrie_encTrie encRecA decRecA decRecA_encRecA t6
    have := trieSize_le_encTrie encRecA t6
    simp [List.length_append]
    omega
  unfold LoadCache
  rw [if_neg hnotshort, if_neg (by simp [htake]), hdrop]
  simp [hver, hcnt, hstrs, ht4, ht6]

/-- C4: decoding the bytes produced by SaveCache yields a database whose
Lookup agrees with the original on every address, found or not.  The string
table indices and counts are uint32 fields, hence the size hypotheses; the
tries must be non-nil since gob cannot encode a nil top-level pointer. -/
theorem c4_savecache_loadcache_roundtrip (g : IPGeo)
    (h4 : g.trieV4 ≠ .nil) (h6 : g.trieV6 ≠ .nil)
    (hcount : g.stringTable.strings.length < 4294967296)
    (hlen : ∀ s ∈ g.stringTable.strings, s.length < 4294967296) :
    ∃ bytes g2, SaveCache g = some bytes ∧ LoadCache bytes = .ok g2 ∧
      ∀ ip, Lookup g2 ip = Lookup g ip := by
  refine ⟨cacheHeader ++ (u32bytes cacheVersion ++ (u32bytes g.stringTable.strings.length ++
      (encStrings g.stringTable.strings ++
        (encTrie encRecA g.trieV4 ++ encTrie encRecA g.trieV6)))),
    ⟨g.trieV4, g.trieV6, ⟨g.stringTable.strings, buildLookup 0 g.stringTable.strings⟩⟩,
    ?_, ?_, ?_⟩
  · unfold SaveCache
    rw [if_neg (by simp [h4, h6])]
  · exact LoadCache_wellformed g.stringTable.strings g.trieV4 g.trieV6 hcount hlen
  · intro ip
    exact Lookup_congr rfl rfl rfl ip

/-- Witness for C4 on the small concrete database c4G. -/
theorem c4_witness :
    ∃ bytes g2, SaveCache c4G = some bytes ∧ LoadCache bytes = .ok g2 ∧
      ∀ ip, Lookup g2 ip = Lookup c4G ip :=
  c4_savecache_loadcache_roundtrip c4G (by decide) (by decide) (by decide) (by decide)

theorem exists_four {l : List Nat} (h : l.length = 4) :
    ∃ a b c d, l = [a, b, c, d] := by
  cases l with
  | nil => simp at h
  | cons a l1 =>
    cases l1 with
    | nil => simp at h
    | cons b l2 =>
      cases l2 with
      | nil => simp at h
      | cons c l3 =>
        cases l3 with
        | nil => simp at h
        | cons d l4 =>
          cases l4 with
          | nil => exact ⟨a, b, c, d, rfl⟩
          | cons e l5 => simp at h

/-- C6: a 15-byte prelude whose header bytes differ from IPGEO_CACHE or
whose version field differs from cacheVersion makes LoadCache fail with an
error, and the result does not depend on any byte after the prelude: no
string table or trie is decoded from such a payload. -/
theorem c6_loadcache_rejects_bad_header_or_version (pre rest rest2 : List Nat)
    (hlen : pre.length = 15)
    (hbad : pre.take 11 ≠ cacheHeader ∨
      (readU32 (pre.drop 11)).map Prod.fst ≠ some cacheVersion) :
    LoadCache (pre ++ rest) = LoadCache (pre ++ rest2) ∧
      ∃ msg, LoadCache (pre ++ rest) = .error msg := by
  have hnotshort : ∀ r : List Nat, ¬ (pre ++ r).length < 11 := by
    intro r
    simp only [List.length_append, hlen, Nat.not_lt]
    omega
  have htake : ∀ r : List Nat, (pre ++ r).take 11 = pre.take 11 :=
    fun r => List.take_append_of_le_length (by omega)
  have hdrop : ∀ r : List Nat, (pre ++ r).drop 11 = pre.drop 11 ++ r :=
    fun r => List.drop_append_of_le_length (by omega)
  by_cases hh : pre.take 11 = cacheHeader
  · have hv : (readU32 (pre.drop 11)).map Prod.fst ≠ some cacheVersion := by
      rcases hbad with hbad | hbad
      · exact absurd hh hbad
      · exact hbad
    obtain ⟨a, b, c, d, habcd⟩ := exists_four (l := pre.drop 11)
      (by simp [List.length_drop, hlen])
    have hvne : a + 256 * b + 65536 * c + 16777216 * d ≠ cacheVersion := by
      intro hx
      apply hv
      rw [habcd]
      simp [readU32, hx]
    have hrun : ∀ r : List Nat, LoadCache (pre ++ r) = .error "incompatible cache version" := by
      intro r
      unfold LoadCache
      rw [if_neg (hnotshort r), if_neg (by simp [htake r, hh]), hdrop r, habcd]
      simp [readU32, hvne]
    rw [hrun rest, hrun rest2]
    exact ⟨rfl, "incompatible cache version", rfl⟩
  · have hrun : ∀ r : List Nat, LoadCache (pre ++ r) = .error "invalid cache file format" := by
      intro r
      unfold LoadCache
      rw [if_neg (hnotshort r), if_pos (by simp [htake r, hh])]
    rw [hrun rest, hrun rest2]
    exact ⟨rfl, "invalid cache file format", rfl⟩

/-- Witness for C6 on a version-3 prelude and two different suffixes. -/
theorem c6_witness :
    LoadCache ((cacheHeader ++ [3, 0, 0, 0]) ++ []) =
        LoadCache ((cacheHeader ++ [3, 0, 0, 0]) ++ [9, 9]) ∧
      ∃ msg, LoadCache ((cacheHeader ++ [3, 0, 0, 0]) ++ []) = .error msg :=
  c6_loadcache_rejects_bad_header_or_version (cacheHeader ++ [3, 0, 0, 0]) [] [9, 9]
    (by decide) (by decide)

/-! ### Lifecycle fallback chain (claim C9) -/

/-- C9 counterexample: with the embedded snapshot compiled in (as it is in
this repository via go:embed), an absent cache file and a valid CSV source,
loadTrie returns the embedded trie, not a database built purely from the
CSV: the claim as stated fails at this input. -/
theorem c9_counterexample_embedded_wins :
    loadTrie c9Embedded c9Disk none = some (.ok c9TrieA) ∧
    (loadTrieFromCSV c9Rows).map
        (Except.ok : TrieNode GeoRecord → Except String (TrieNode GeoRecord)) ≠
      some (.ok c9TrieA) := by
  decide

/-- C9 amended: when no embedded snapshot is present, an absent or corrupt
cache file together with an existing CSV source makes loadTrie build purely
from that CSV; and whenever an embedded snapshot is present it is used
unconditionally (in particular when neither cache nor CSV exists). -/
theorem c9_amended_fallback_chain (disk : DiskState)
    (download : Option (List (List GoStr))) (mt : Nat) (rows : List (List GoStr))
    (hcsv : disk.csvFile = some (mt, rows))
    (hcache : disk.cacheFile = none ∨
      ∀ cmt cbytes, disk.cacheFile = some (cmt, cbytes) →
        ∃ e, loadTrieFromCache cbytes = .error e) :
    loadTrie [] disk download = (loadTrieFromCSV rows).map Except.ok ∧
    ∀ (emb : List Nat), emb ≠ [] → ∀ (disk2 : DiskState)
      (dl2 : Option (List (List GoStr))),
      loadTrie emb disk2 dl2 = some (loadTrieFromEmbedded emb) := by
  constructor
  · unfold loadTrie
    rw [if_neg (by simp)]
    cases hcf : disk.cacheFile with
    | none => simp only [loadTrieCSVOrDownload, hcsv]
    | some p =>
      obtain ⟨cmt, cbytes⟩ := p
      have hcor : ∃ e, loadTrieFromCache cbytes = .error e := by
        rcases hcache with hnone | hcorrupt
        · rw [hnone] at hcf
          cases hcf
        · exact hcorrupt cmt cbytes hcf
      obtain ⟨e, he⟩ := hcor
      simp only [hcsv, he, loadTrieCSVOrDownload, ite_self]
  · intro emb hemb disk2 dl2
    unfold loadTrie
    rw [if_pos hemb]

/-- Witness for the amended C9: no embedded snapshot, no cache file, the
one-row CSV source; loadTrie builds purely from the CSV. -/
theorem c9_witness :
    loadTrie [] ⟨none, some (0, c9Rows)⟩ none = (loadTrieFromCSV c9Rows).map Except.ok :=
  (c9_amended_fallback_chain ⟨none, some (0, c9Rows)⟩ none 0 c9Rows rfl (Or.inl rfl)).1

end IpGeo
